import Mathlib

/-!
# The `wizchip` MicroPython module (`mod_wizchip.c`)

A shallow embedding of the four wrappers of `src/MicroController/mod_wizchip.c`
(the copy under `extmod/wizchip/` has the same function bodies): `wizchip_reset`,
`wizchip_init`, `wizchip_get_ip` and `wizchip_set_ip`.

* The vendor driver (`wizchip_conf.h`) is an external collaborator; it is a
  parameter of the model (`Driver`), and every call the wrappers make to it is
  recorded in a call log.
* The two C library calls that carry the textual address conversion,
  `snprintf(.., "%d.%d.%d.%d", ..)` and `sscanf(.., "%hhu.%hhu.%hhu.%hhu", ..)`,
  are modelled after ISO C (7.21.6.1, 7.21.6.2, 7.22.1.4). Where ISO C leaves the
  result undefined, the store of a value that an `unsigned char` cannot hold, the
  model takes the result as a parameter (`UndefinedStore`).
* MicroPython exceptions (`mp_raise_OSError`, `mp_raise_ValueError`) do not
  return; a wrapper's outcome is an `Except MpException mp_obj_t`.
-/

namespace Wizchip

/-! ## C library: character classes -/

/-- The character class `isspace` of the "C" locale: space, `\t`, `\n`, `\v`, `\f`, `\r`. -/
def isspace (c : Char) : Bool :=
  c = ' ' || c = '\t' || c = '\n' || c = Char.ofNat 11 || c = Char.ofNat 12 || c = '\r'

/-- The character class `isdigit`: `'0'` to `'9'`. -/
def isdigit (c : Char) : Bool :=
  decide (48 ≤ c.toNat) && decide (c.toNat ≤ 57)

/-! ## C library: `snprintf` with `"%d.%d.%d.%d"` -/

/-- The conversion `%d` applied to a `uint8_t` promoted to `int` (never negative):
the decimal digits of the value, most significant first, no padding. -/
def fmt_d (n : Nat) : List Char :=
  Nat.toDigits 10 n

/-- The complete text that the format `"%d.%d.%d.%d"` produces for four arguments. -/
def format_ip (a b c d : Nat) : List Char :=
  fmt_d a ++ '.' :: (fmt_d b ++ '.' :: (fmt_d c ++ '.' :: fmt_d d))

/-- The call `snprintf(buf, size, ..)` for a complete text `full`: at most `size - 1`
characters are stored (followed by the NUL); the return value is the length of the
complete text. -/
def snprintf (size : Nat) (full : List Char) : List Char × Nat :=
  (full.take (size - 1), full.length)

/-- The call `strlen(buf)`: the number of characters before the first NUL. -/
def strlen (buf : List Char) : Nat :=
  (buf.takeWhile (fun c => c != Char.ofNat 0)).length

/-! ## C library: `sscanf` with `"%hhu.%hhu.%hhu.%hhu"` -/

/-- White-space skipping before a conversion: input characters are dropped while
`isspace` holds. -/
def skip_space (s : List Char) : List Char :=
  s.dropWhile isspace

/-- The value of a run of decimal digits, most significant first. -/
def digits_value (ds : List Char) : Nat :=
  ds.foldl (fun acc c => acc * 10 + (c.toNat - 48)) 0

/-- The part of the C library that neither ISO C nor the source fixes: what an
`unsigned char` cell holds after `%hhu` has converted a value the cell cannot
represent (7.21.6.2p10 leaves it undefined). The arguments are whether a minus sign
was read and the value of the digits. It is a parameter of the model. -/
abbrev UndefinedStore := Bool → Nat → Nat

/-- The store of a converted value through an `unsigned char *` (length modifier
`hh`). The digits of value `v`, negated in `unsigned long` arithmetic when a minus
sign was read, give a value the cell represents exactly when `v ≤ 255` and no
negation takes place (`v = 0` or no minus sign): then the cell holds `v`. Otherwise
the cell holds whatever the library leaves there, some value of 8 bits. -/
def store_hhu (undef : UndefinedStore) (neg : Bool) (v : Nat) : Nat :=
  if v ≤ 255 ∧ (neg = false ∨ v = 0) then v else undef neg v % 256

/-- Outcome of one conversion. -/
inductive Conv where
  | input_failure
  | matching_failure
  | assigned (v : Nat) (rest : List Char)
  deriving DecidableEq, Repr

/-- The conversion `%hhu`: white space is skipped; at the end of the string (no
character left, or the terminating NUL) the conversion is an input failure;
otherwise the input item is an optional sign followed by the longest run of decimal
digits, and without a digit the conversion is a matching failure. -/
def conv_hhu (undef : UndefinedStore) (s : List Char) : Conv :=
  match skip_space s with
  | [] => Conv.input_failure
  | c :: cs =>
    if c = Char.ofNat 0 then Conv.input_failure
    else
      let body := if c = '-' ∨ c = '+' then cs else c :: cs
      let ds := body.takeWhile isdigit
      if ds.isEmpty then Conv.matching_failure
      else Conv.assigned (store_hhu undef (c == '-') (digits_value ds))
        (body.dropWhile isdigit)

/-- A directive of a `scanf` format: the conversion `%hhu` or an ordinary character
(not white space, not `%`), which must match the next input character. -/
inductive Directive where
  | hhu
  | lit (c : Char)
  deriving DecidableEq, Repr

/-- The format string `"%hhu.%hhu.%hhu.%hhu"`. -/
def ip_format : List Directive :=
  [Directive.hhu, Directive.lit '.', Directive.hhu, Directive.lit '.',
   Directive.hhu, Directive.lit '.', Directive.hhu]

/-- The value of the macro `EOF`. -/
def EOF : Int := -1

/-- The return value of `sscanf` when it stops on a failure: `EOF` for an input
failure before the first conversion has completed, otherwise the number of items
assigned so far. -/
def stop_count (input_failure : Bool) (out : List Nat) : Int :=
  if input_failure && out.isEmpty then EOF else (out.length : Int)

/-- The directive loop of `sscanf`: directives are executed in order on the input;
`out` holds the values assigned so far. Returns the return value and the values
assigned, in order. -/
def sscanf_loop (undef : UndefinedStore) :
    List Directive → List Char → List Nat → Int × List Nat
  | [], _, out => ((out.length : Int), out)
  | Directive.lit c :: ds, s, out =>
    match s with
    | [] => (stop_count true out, out)
    | x :: xs =>
      if x = Char.ofNat 0 then (stop_count true out, out)
      else if x = c then sscanf_loop undef ds xs out
      else (stop_count false out, out)
  | Directive.hhu :: ds, s, out =>
    match conv_hhu undef s with
    | Conv.input_failure => (stop_count true out, out)
    | Conv.matching_failure => (stop_count false out, out)
    | Conv.assigned v rest => sscanf_loop undef ds rest (out ++ [v])

/-- The call `sscanf(ip_str, "%hhu.%hhu.%hhu.%hhu", &ip[0], &ip[1], &ip[2], &ip[3])`. -/
def sscanf_ip (undef : UndefinedStore) (ip_str : List Char) : Int × List Nat :=
  sscanf_loop undef ip_format ip_str []

/-! ## MicroPython runtime -/

/-- The MicroPython objects these wrappers receive and return. -/
inductive mp_obj_t where
  | none
  | int (i : Int)
  | str (s : String)
  deriving DecidableEq, Repr

/-- The MicroPython exceptions these wrappers raise. -/
inductive MpException where
  | OSError (errno : Int)
  | ValueError (msg : String)
  | TypeError
  deriving DecidableEq, Repr

/-- The call `mp_obj_str_get_str(o)`: the characters of a `str` object; any other
object raises `TypeError`. -/
def mp_obj_str_get_str : mp_obj_t → Except MpException (List Char)
  | mp_obj_t.str s => Except.ok s.toList
  | _ => Except.error MpException.TypeError

/-- The call `mp_obj_new_str(data, len)`: a `str` object of the first `len` characters. -/
def mp_obj_new_str (data : List Char) (len : Nat) : mp_obj_t :=
  mp_obj_t.str (String.mk (data.take len))

/-! ## The driver and the device -/

/-- An `uint8_t ip[4]` array. -/
structure ip4 where
  b0 : Nat
  b1 : Nat
  b2 : Nat
  b3 : Nat
  deriving DecidableEq, Repr

/-- A call to the driver, as recorded in the call log. -/
inductive DriverCall where
  | sw_reset
  | init
  | get_ip
  | set_ip (ip : ip4)
  deriving DecidableEq, Repr

/-- The driver functions declared by `wizchip_conf.h`, over a device state `σ`.
In the source each wrapper has the name of the driver function it wraps; the calls
inside the wrapper bodies are the driver functions, as the comments there say. -/
structure Driver (σ : Type) where
  wizchip_sw_reset : σ → σ
  wizchip_init : σ → Int × σ
  wizchip_get_ip : σ → ip4 × σ
  wizchip_set_ip : ip4 → σ → σ

/-- The device together with the log of driver calls made so far. -/
structure World (σ : Type) where
  dev : σ
  calls : List DriverCall

/-- The outcome of a wrapper: the object returned or the exception raised, and the
world after the call. -/
abbrev Outcome (σ : Type) := Except MpException mp_obj_t × World σ

/-! ## The wrappers of `mod_wizchip.c` -/

/-- The wrapper `wizchip.reset()`. -/
def wizchip_reset {σ : Type} (drv : Driver σ) (w : World σ) : Outcome σ :=
  let w1 : World σ := ⟨drv.wizchip_sw_reset w.dev, w.calls ++ [DriverCall.sw_reset]⟩
  (Except.ok mp_obj_t.none, w1)

/-- The wrapper `wizchip.init()`. -/
def wizchip_init {σ : Type} (drv : Driver σ) (w : World σ) : Outcome σ :=
  let r := drv.wizchip_init w.dev
  let ret : Int := r.1
  let w1 : World σ := ⟨r.2, w.calls ++ [DriverCall.init]⟩
  if ret ≠ 0 then (Except.error (MpException.OSError ret), w1)
  else (Except.ok mp_obj_t.none, w1)

/-- The wrapper `wizchip.get_ip()`. The array cells are `uint8_t`. -/
def wizchip_get_ip {σ : Type} (drv : Driver σ) (w : World σ) : Outcome σ :=
  let r := drv.wizchip_get_ip w.dev
  let ip : ip4 := ⟨r.1.b0 % 256, r.1.b1 % 256, r.1.b2 % 256, r.1.b3 % 256⟩
  let w1 : World σ := ⟨r.2, w.calls ++ [DriverCall.get_ip]⟩
  let ip_str := (snprintf 16 (format_ip ip.b0 ip.b1 ip.b2 ip.b3)).1
  (Except.ok (mp_obj_new_str ip_str (strlen ip_str)), w1)

/-- The wrapper `wizchip.set_ip(ip)`. The array `ip` is uninitialised storage; its
cells are read only after `sscanf` has assigned all four. -/
def wizchip_set_ip {σ : Type} (undef : UndefinedStore) (drv : Driver σ) (ip_obj : mp_obj_t)
    (w : World σ) : Outcome σ :=
  match mp_obj_str_get_str ip_obj with
  | Except.error e => (Except.error e, w)
  | Except.ok ip_str =>
    let r := sscanf_ip undef ip_str
    if r.1 ≠ 4 then (Except.error (MpException.ValueError "Invalid IP format"), w)
    else
      let ip : ip4 := ⟨r.2.getD 0 0, r.2.getD 1 0, r.2.getD 2 0, r.2.getD 3 0⟩
      let w1 : World σ := ⟨drv.wizchip_set_ip ip w.dev, w.calls ++ [DriverCall.set_ip ip]⟩
      (Except.ok mp_obj_t.none, w1)

/-! ## Dotted-decimal text, as the specification words it -/

/-- The `.`-separated segments of a text (an empty text has one empty segment). -/
def segments : List Char → List (List Char)
  | [] => [[]]
  | c :: cs =>
    if c = '.' then [] :: segments cs
    else
      match segments cs with
      | [] => [[c]]
      | seg :: segs => (c :: seg) :: segs

/-- A decimal numeral: a non-empty run of decimal digits (no sign, no white space). -/
def is_numeral (l : List Char) : Bool :=
  !l.isEmpty && l.all isdigit

/-- A canonical octet numeral: a decimal numeral of value 0..255 without leading
zeros. -/
def is_canonical_octet (l : List Char) : Bool :=
  is_numeral l && (decide (l.length = 1) || l.head? != some '0') && decide (digits_value l ≤ 255)

/-- Canonical dotted-decimal form: exactly four canonical octet numerals joined by
single `.` characters and nothing else. -/
def is_canonical (s : List Char) : Bool :=
  match segments s with
  | [n0, n1, n2, n3] =>
    is_canonical_octet n0 && is_canonical_octet n1 && is_canonical_octet n2 &&
      is_canonical_octet n3
  | _ => false

/-- A segment that begins with a decimal digit (an empty segment does not). -/
def begins_with_digit : List Char → Bool
  | [] => false
  | c :: _ => isdigit c

/-- A segment that begins with a character a `%hhu` conversion can start on: white
space, a sign or a decimal digit (an empty segment does not). -/
def begins_convertible : List Char → Bool
  | [] => false
  | c :: _ => isspace c || c = '-' || c = '+' || isdigit c

/-! ## A driver double for the examples -/

/-- A device double: the address it holds and the status its initialisation reports. -/
structure FakeDevice where
  addr : ip4
  status : Int
  deriving DecidableEq, Repr

/-- A driver double over `FakeDevice`. -/
def fakeDriver : Driver FakeDevice where
  wizchip_sw_reset := fun dv => ⟨⟨0, 0, 0, 0⟩, dv.status⟩
  wizchip_init := fun dv => (dv.status, dv)
  wizchip_get_ip := fun dv => (dv.addr, dv)
  wizchip_set_ip := fun ip dv => ⟨ip, dv.status⟩

/-- A store double for the examples: the low 8 bits of the two's-complement value. -/
def low_byte_store : UndefinedStore :=
  fun neg v => if neg then 256 - v % 256 else v

/-! ## Auxiliary definitions -/

/-- The value an unsigned numeral leaves in an `ip` cell. -/
def stored (undef : UndefinedStore) (n : List Char) : Nat :=
  store_hhu undef false (digits_value n)

/-- Joining segments with dots. -/
def join_dots : List (List Char) → List Char
  | [] => []
  | [seg] => seg
  | seg :: seg1 :: segs => seg ++ '.' :: join_dots (seg1 :: segs)

/-- A character that can belong to the input item of a `%hhu` conversion or to the
white space before it. -/
def conv_char (c : Char) : Bool :=
  isspace c || c = '-' || c = '+' || isdigit c

/-- The ten decimal digit characters. -/
def digit_chars : List Char :=
  ['0', '1', '2', '3', '4', '5', '6', '7', '8', '9']

/-! ## Facts about `%d` on octets -/

set_option maxRecDepth 100000 in
theorem fmt_d_octet_facts : ∀ n < 256,
    (1 ≤ (fmt_d n).length ∧ (fmt_d n).length ≤ 3) ∧ (fmt_d n).all isdigit = true ∧
      digits_value (fmt_d n) = n := by
  decide

/-! ## Facts about the `%hhu` conversion -/

theorem takeWhile_digits_append (l r : List Char) (hl : l.all isdigit = true)
    (hr : begins_with_digit r = false) :
    (l ++ r).takeWhile isdigit = l ∧ (l ++ r).dropWhile isdigit = r := by
  induction l with
  | nil =>
    cases r with
    | nil => simp
    | cons c cs =>
      simp only [begins_with_digit] at hr
      simp [List.takeWhile, List.dropWhile, hr]
  | cons c cs ih =>
    simp only [List.all_cons, Bool.and_eq_true] at hl
    simp [List.takeWhile, List.dropWhile, hl.1, ih hl.2]

theorem isdigit_not_special (c : Char) (h : isdigit c = true) :
    isspace c = false ∧ c ≠ Char.ofNat 0 ∧ c ≠ '-' ∧ c ≠ '+' ∧ c ≠ '.' := by
  simp only [isdigit, Bool.and_eq_true, decide_eq_true_eq] at h
  refine ⟨?_, ?_, ?_, ?_, ?_⟩
  · simp only [isspace, Bool.or_eq_false_iff, decide_eq_false_iff_not]
    refine ⟨⟨⟨⟨⟨?_, ?_⟩, ?_⟩, ?_⟩, ?_⟩, ?_⟩ <;> (rintro rfl; revert h; decide)
  all_goals (rintro rfl; revert h; decide)

/-- A numeral followed by text that does not begin with a digit is converted whole:
the value of its digits is stored as an unsigned conversion stores it, and the text
after it is left in the input. -/
theorem conv_hhu_numeral (undef : UndefinedStore) (n r : List Char) (hn : is_numeral n = true)
    (hr : begins_with_digit r = false) :
    conv_hhu undef (n ++ r)
      = Conv.assigned (store_hhu undef false (digits_value n)) r := by
  cases n with
  | nil => simp [is_numeral] at hn
  | cons c cs =>
    simp only [is_numeral, List.isEmpty_cons, Bool.not_false, Bool.true_and] at hn
    have hc : isdigit c = true := by
      simp only [List.all_cons, Bool.and_eq_true] at hn; exact hn.1
    obtain ⟨h1, h2, h3, h4, -⟩ := isdigit_not_special c hc
    obtain ⟨ht, hd⟩ := takeWhile_digits_append (c :: cs) r hn hr
    have hneg : (c == '-') = false := by simpa using h3
    simp only [conv_hhu, skip_space, List.cons_append, List.dropWhile_cons, h1]
    simp only [List.cons_append] at ht hd
    simp [h2, h3, h4, ht, hd, hneg]

/-- Four numerals joined by dots, followed by text that does not begin with a digit,
give four assignments. -/
theorem sscanf_ip_four_numerals (undef : UndefinedStore) (n0 n1 n2 n3 r : List Char)
    (h0 : is_numeral n0 = true) (h1 : is_numeral n1 = true) (h2 : is_numeral n2 = true)
    (h3 : is_numeral n3 = true) (hr : begins_with_digit r = false) :
    sscanf_ip undef (n0 ++ '.' :: (n1 ++ '.' :: (n2 ++ '.' :: (n3 ++ r))))
      = (4, [stored undef n0, stored undef n1, stored undef n2, stored undef n3]) := by
  have hdot : ∀ t : List Char, begins_with_digit ('.' :: t) = false := by
    intro t; simp only [begins_with_digit]; decide
  have hne : ('.' : Char) ≠ Char.ofNat 0 := by decide
  simp only [sscanf_ip, ip_format, sscanf_loop, conv_hhu_numeral undef _ _ h0 (hdot _),
    conv_hhu_numeral undef _ _ h1 (hdot _), conv_hhu_numeral undef _ _ h2 (hdot _),
    conv_hhu_numeral undef _ _ h3 hr, hne, if_false, if_true, stored]
  simp

theorem segments_ne_nil (s : List Char) : segments s ≠ [] := by
  cases s with
  | nil => simp [segments]
  | cons c cs =>
    simp only [segments]
    split
    · simp
    · split <;> simp

theorem join_dots_segments (s : List Char) : join_dots (segments s) = s := by
  induction s with
  | nil => simp [segments, join_dots]
  | cons c cs ih =>
    simp only [segments]
    split
    · next h =>
      obtain ⟨seg, segs, hs⟩ := List.exists_cons_of_ne_nil (segments_ne_nil cs)
      rw [hs] at ih ⊢
      simp [join_dots, ih, h]
    · split
      · next hs => exact absurd hs (segments_ne_nil cs)
      · next seg segs hs =>
        rw [hs] at ih
        cases segs with
        | nil => simpa [join_dots] using ih
        | cons seg1 segs1 =>
          simp only [join_dots, List.cons_append] at ih ⊢
          rw [ih]

theorem eq_of_segments_four (s n0 n1 n2 n3 : List Char) (h : segments s = [n0, n1, n2, n3]) :
    s = n0 ++ '.' :: (n1 ++ '.' :: (n2 ++ '.' :: (n3 ++ []))) := by
  have := join_dots_segments s
  rw [h] at this
  simpa [join_dots] using this.symm

theorem sscanf_ip_four_shape (undef : UndefinedStore) (s : List Char) (h : (sscanf_ip undef s).1 = 4) :
    ∃ v0 r0 v1 r1 v2 r2 v3 r3,
      conv_hhu undef s = Conv.assigned v0 ('.' :: r0) ∧ conv_hhu undef r0 = Conv.assigned v1 ('.' :: r1) ∧
      conv_hhu undef r1 = Conv.assigned v2 ('.' :: r2) ∧ conv_hhu undef r2 = Conv.assigned v3 r3 ∧
      (sscanf_ip undef s).2 = [v0, v1, v2, v3] := by
  have lit : ∀ (ds : List Directive) (t : List Char) (out : List Nat),
      (sscanf_loop undef (Directive.lit '.' :: ds) t out).1 ≠ (out.length : Int) →
      (sscanf_loop undef (Directive.lit '.' :: ds) t out).1 ≠ EOF →
      ∃ r, t = '.' :: r ∧ sscanf_loop undef (Directive.lit '.' :: ds) t out = sscanf_loop undef ds r out := by
    intro ds t out h1 h2
    cases t with
    | nil =>
      simp only [sscanf_loop, stop_count] at h1 h2
      split at h1 <;> simp_all
    | cons x xs =>
      simp only [sscanf_loop] at h1 h2 ⊢
      by_cases hx0 : x = Char.ofNat 0
      · simp only [hx0, if_true, stop_count] at h1 h2
        split at h1 <;> simp_all
      · by_cases hx : x = '.'
        · subst hx
          exact ⟨xs, rfl, by simp [hx0]⟩
        · simp [hx0, hx, stop_count] at h1
  have cnv : ∀ (ds : List Directive) (t : List Char) (out : List Nat),
      (sscanf_loop undef (Directive.hhu :: ds) t out).1 ≠ (out.length : Int) →
      (sscanf_loop undef (Directive.hhu :: ds) t out).1 ≠ EOF →
      ∃ v r, conv_hhu undef t = Conv.assigned v r ∧
        sscanf_loop undef (Directive.hhu :: ds) t out = sscanf_loop undef ds r (out ++ [v]) := by
    intro ds t out h1 h2
    simp only [sscanf_loop] at h1 h2 ⊢
    cases hc : conv_hhu undef t with
    | input_failure =>
      simp only [hc, stop_count] at h1 h2
      split at h1 <;> simp_all
    | matching_failure => simp [hc, stop_count] at h1
    | assigned v r => exact ⟨v, r, rfl, rfl⟩
  have hE : (4 : Int) ≠ EOF := by decide
  unfold sscanf_ip ip_format at h ⊢
  obtain ⟨v0, t0, c0, e0⟩ := cnv _ s [] (by rw [h]; simp) (by rw [h]; exact hE)
  rw [e0] at h ⊢
  obtain ⟨r0, rfl, e0⟩ := lit _ t0 _ (by rw [h]; simp) (by rw [h]; exact hE)
  rw [e0] at h ⊢
  obtain ⟨v1, t1, c1, e1⟩ := cnv _ r0 _ (by rw [h]; simp) (by rw [h]; exact hE)
  rw [e1] at h ⊢
  obtain ⟨r1, rfl, e1⟩ := lit _ t1 _ (by rw [h]; simp) (by rw [h]; exact hE)
  rw [e1] at h ⊢
  obtain ⟨v2, t2, c2, e2⟩ := cnv _ r1 _ (by rw [h]; simp) (by rw [h]; exact hE)
  rw [e2] at h ⊢
  obtain ⟨r2, rfl, e2⟩ := lit _ t2 _ (by rw [h]; simp) (by rw [h]; exact hE)
  rw [e2] at h ⊢
  obtain ⟨v3, t3, c3, e3⟩ := cnv _ r2 _ (by rw [h]; simp) (by rw [h]; exact hE)
  rw [e3]
  exact ⟨v0, r0, v1, r1, v2, r2, v3, t3, c0, c1, c2, c3, by simp [sscanf_loop]⟩

theorem all_takeWhile (f : Char → Bool) (l : List Char) : (l.takeWhile f).all f = true := by
  rw [List.all_eq_true]
  intro x hx
  exact List.mem_takeWhile_imp hx

theorem all_conv_char_of_all (f : Char → Bool) (hf : ∀ c, f c = true → conv_char c = true)
    (l : List Char) (h : l.all f = true) : l.all conv_char = true := by
  rw [List.all_eq_true] at h ⊢
  intro x hx
  exact hf x (h x hx)

/-- The text a successful `%hhu` conversion consumes is not empty and is made of white
space, signs and digits only. -/
theorem conv_hhu_assigned_shape (undef : UndefinedStore) (s : List Char) (v : Nat)
    (r : List Char)
    (h : conv_hhu undef s = Conv.assigned v r) :
    ∃ p, s = p ++ r ∧ p ≠ [] ∧ p.all conv_char = true := by
  have hws := all_conv_char_of_all isspace (fun c hc => by simp [conv_char, hc]) _
    (all_takeWhile isspace s)
  have hsplit := List.takeWhile_append_dropWhile isspace s
  unfold conv_hhu skip_space at h
  cases hd : s.dropWhile isspace with
  | nil => simp [hd] at h
  | cons c cs =>
    rw [hd] at hsplit
    simp only [hd] at h
    by_cases hc0 : c = Char.ofNat 0
    · simp [hc0] at h
    · simp only [hc0, if_false] at h
      by_cases hsign : c = '-' ∨ c = '+'
      · simp only [hsign, if_true] at h
        have hbody := List.takeWhile_append_dropWhile isdigit cs
        have hds := all_conv_char_of_all isdigit (fun c hc => by simp [conv_char, hc]) _
          (all_takeWhile isdigit cs)
        split at h
        · simp at h
        · simp only [Conv.assigned.injEq] at h
          refine ⟨s.takeWhile isspace ++ c :: cs.takeWhile isdigit, ?_, by simp, ?_⟩
          · rw [← h.2, List.append_assoc, List.cons_append, hbody, hsplit]
          · have hcc : conv_char c = true := by
              rcases hsign with rfl | rfl <;> decide
            simp only [List.all_append, List.all_cons, hws, hcc, hds, Bool.and_self]
      · simp only [hsign, if_false] at h
        have hbody := List.takeWhile_append_dropWhile isdigit (c :: cs)
        have hds := all_conv_char_of_all isdigit (fun c hc => by simp [conv_char, hc]) _
          (all_takeWhile isdigit (c :: cs))
        split at h
        · simp at h
        · next hne =>
          simp only [Conv.assigned.injEq] at h
          refine ⟨s.takeWhile isspace ++ (c :: cs).takeWhile isdigit, ?_, ?_, ?_⟩
          · rw [← h.2, List.append_assoc, hbody, hsplit]
          · intro hnil
            simp only [List.append_eq_nil] at hnil
            simp [hnil.2] at hne
          · simp only [List.all_append, hws, hds, Bool.and_self]

theorem conv_char_ne_dot (c : Char) (h : conv_char c = true) : c ≠ '.' := by
  rintro rfl
  revert h
  decide

theorem segments_append_dot (p t : List Char) (hp : p.all conv_char = true) :
    segments (p ++ '.' :: t) = p :: segments t := by
  induction p with
  | nil => simp [segments]
  | cons c cs ih =>
    simp only [List.all_cons, Bool.and_eq_true] at hp
    simp [segments, conv_char_ne_dot c hp.1, ih hp.2]

theorem segments_append_head (p r : List Char) (hp : p.all conv_char = true) :
    ∃ x rest, segments (p ++ r) = (p ++ x) :: rest := by
  induction p with
  | nil =>
    obtain ⟨seg, segs, hs⟩ := List.exists_cons_of_ne_nil (segments_ne_nil r)
    exact ⟨seg, segs, by simpa using hs⟩
  | cons c cs ih =>
    simp only [List.all_cons, Bool.and_eq_true] at hp
    obtain ⟨x, rest, hx⟩ := ih hp.2
    exact ⟨x, rest, by simp [segments, conv_char_ne_dot c hp.1, hx]⟩

theorem begins_convertible_append (p x : List Char) (hne : p ≠ [])
    (hp : p.all conv_char = true) : begins_convertible (p ++ x) = true := by
  cases p with
  | nil => exact absurd rfl hne
  | cons c cs =>
    simp only [List.all_cons, Bool.and_eq_true] at hp
    simpa [begins_convertible, conv_char] using hp.1

/-- When `sscanf` reports four assignments, the text has at least four segments and
each of the first four begins with white space, a sign or a digit. -/
theorem first_four_convertible (undef : UndefinedStore) (s : List Char) (h : (sscanf_ip undef s).1 = 4) :
    ∃ g0 g1 g2 g3 rest, segments s = g0 :: g1 :: g2 :: g3 :: rest ∧
      begins_convertible g0 = true ∧ begins_convertible g1 = true ∧
      begins_convertible g2 = true ∧ begins_convertible g3 = true := by
  obtain ⟨v0, r0, v1, r1, v2, r2, v3, r3, c0, c1, c2, c3, -⟩ := sscanf_ip_four_shape undef s h
  obtain ⟨p0, e0, n0, a0⟩ := conv_hhu_assigned_shape undef _ _ _ c0
  obtain ⟨p1, e1, n1, a1⟩ := conv_hhu_assigned_shape undef _ _ _ c1
  obtain ⟨p2, e2, n2, a2⟩ := conv_hhu_assigned_shape undef _ _ _ c2
  obtain ⟨p3, e3, n3, a3⟩ := conv_hhu_assigned_shape undef _ _ _ c3
  obtain ⟨x, rest, hx⟩ := segments_append_head p3 r3 a3
  refine ⟨p0, p1, p2, p3 ++ x, rest, ?_, ?_, ?_, ?_, ?_⟩
  · rw [e0, segments_append_dot _ _ a0, e1, segments_append_dot _ _ a1, e2,
      segments_append_dot _ _ a2, e3, hx]
  · simpa using begins_convertible_append p0 [] n0 a0
  · simpa using begins_convertible_append p1 [] n1 a1
  · simpa using begins_convertible_append p2 [] n2 a2
  · exact begins_convertible_append p3 x n3 a3

theorem mem_digit_chars (c : Char) (h : isdigit c = true) : c ∈ digit_chars := by
  simp only [isdigit, Bool.and_eq_true, decide_eq_true_eq] at h
  have hc : c = Char.ofNat c.toNat := (Char.ofNat_toNat c).symm
  generalize c.toNat = k at h hc
  obtain ⟨h1, h2⟩ := h
  subst hc
  interval_cases k <;> decide

set_option maxRecDepth 1000000 in
theorem canonical_octet_small :
    (∀ c0 ∈ digit_chars, is_canonical_octet [c0] = true → fmt_d (digits_value [c0]) = [c0]) ∧
    (∀ c0 ∈ digit_chars, ∀ c1 ∈ digit_chars, is_canonical_octet [c0, c1] = true →
      fmt_d (digits_value [c0, c1]) = [c0, c1]) ∧
    (∀ c0 ∈ digit_chars, ∀ c1 ∈ digit_chars, ∀ c2 ∈ digit_chars,
      is_canonical_octet [c0, c1, c2] = true →
      fmt_d (digits_value [c0, c1, c2]) = [c0, c1, c2]) := by
  decide

theorem foldl_digits_ge (l : List Char) (acc : Nat) :
    acc * 10 ^ l.length ≤ l.foldl (fun a c => a * 10 + (c.toNat - 48)) acc := by
  induction l generalizing acc with
  | nil => simp
  | cons c cs ih =>
    simp only [List.foldl_cons, List.length_cons]
    calc acc * 10 ^ (cs.length + 1) = (acc * 10) * 10 ^ cs.length := by ring
      _ ≤ (acc * 10 + (c.toNat - 48)) * 10 ^ cs.length :=
        Nat.mul_le_mul_right _ (Nat.le_add_right _ _)
      _ ≤ _ := ih _

theorem canonical_octet_length (n : List Char) (h : is_canonical_octet n = true) :
    n.length ≤ 3 := by
  by_contra hlen
  match n, h, hlen with
  | c0 :: c1 :: c2 :: c3 :: t, h, _ =>
    simp only [is_canonical_octet, is_numeral, Bool.and_eq_true, decide_eq_true_eq,
      Bool.or_eq_true, List.all_cons, List.length_cons, List.head?_cons] at h
    obtain ⟨⟨⟨-, hd0, -⟩, hz⟩, hv⟩ := h
    have hz0 : c0 ≠ '0' := by
      rcases hz with hz | hz
      · omega
      · simpa using hz
    have h1 : 1 ≤ c0.toNat - 48 := by
      have hm := mem_digit_chars c0 hd0
      simp only [digit_chars, List.mem_cons, List.mem_singleton, List.not_mem_nil,
        or_false] at hm
      rcases hm with rfl | rfl | rfl | rfl | rfl | rfl | rfl | rfl | rfl | rfl
      · exact absurd rfl hz0
      all_goals decide
    have hge := foldl_digits_ge (c1 :: c2 :: c3 :: t) (0 * 10 + (c0.toNat - 48))
    simp only [digits_value, List.foldl_cons] at hv
    simp only [List.foldl_cons, List.length_cons] at hge
    have hp : 1 ≤ 10 ^ t.length := Nat.one_le_pow _ _ (by norm_num)
    have : 1000 ≤ (0 * 10 + (c0.toNat - 48)) * 10 ^ (t.length + 1 + 1 + 1) := by
      calc 1000 = 1 * (1 * 1000) := by norm_num
        _ ≤ (0 * 10 + (c0.toNat - 48)) * (10 ^ t.length * 1000) :=
          Nat.mul_le_mul (by omega) (Nat.mul_le_mul hp (le_refl _))
        _ = _ := by ring
    omega
  | [], _, hlen => simp at hlen
  | [_], _, hlen => simp at hlen
  | [_, _], _, hlen => simp at hlen
  | [_, _, _], _, hlen => simp at hlen

/-- Formatting the value of a canonical octet numeral gives the numeral back. -/
theorem fmt_d_canonical_octet (n : List Char) (h : is_canonical_octet n = true) :
    fmt_d (digits_value n) = n := by
  have hlen := canonical_octet_length n h
  have hdig : ∀ c ∈ n, c ∈ digit_chars := by
    intro c hc
    simp only [is_canonical_octet, is_numeral, Bool.and_eq_true, List.all_eq_true] at h
    exact mem_digit_chars c (h.1.1.2 c hc)
  obtain ⟨s1, s2, s3⟩ := canonical_octet_small
  match n, h, hlen, hdig with
  | [], h, _, _ => simp [is_canonical_octet, is_numeral] at h
  | [c0], h, _, hdig => exact s1 c0 (hdig c0 (by simp)) h
  | [c0, c1], h, _, hdig => exact s2 c0 (hdig c0 (by simp)) c1 (hdig c1 (by simp)) h
  | [c0, c1, c2], h, _, hdig =>
    exact s3 c0 (hdig c0 (by simp)) c1 (hdig c1 (by simp)) c2 (hdig c2 (by simp)) h
  | _ :: _ :: _ :: _ :: _, _, hlen, _ => simp at hlen

theorem stored_of_le (undef : UndefinedStore) (n : List Char) (h : digits_value n ≤ 255) :
    stored undef n = digits_value n := by
  simp [stored, store_hhu, h]

theorem canonical_octet_parts (n : List Char) (h : is_canonical_octet n = true) :
    is_numeral n = true ∧ digits_value n ≤ 255 := by
  simp only [is_canonical_octet, Bool.and_eq_true, decide_eq_true_eq] at h
  exact ⟨h.1.1, h.2⟩

theorem no_nul_of_digits_dots (l : List Char) (h : ∀ c ∈ l, isdigit c = true ∨ c = '.') :
    strlen l = l.length := by
  have : l.takeWhile (fun c => c != Char.ofNat 0) = l := by
    rw [List.takeWhile_eq_self_iff]
    intro c hc
    rcases h c hc with hd | rfl
    · simpa using (isdigit_not_special c hd).2.1
    · decide
  simp only [strlen, this]

theorem format_ip_chars (a b c d : Nat) (ha : a ≤ 255) (hb : b ≤ 255) (hc : c ≤ 255)
    (hd : d ≤ 255) : ∀ x ∈ format_ip a b c d, isdigit x = true ∨ x = '.' := by
  have fa := (fmt_d_octet_facts a (by omega)).2.1
  have fb := (fmt_d_octet_facts b (by omega)).2.1
  have fc := (fmt_d_octet_facts c (by omega)).2.1
  have fd := (fmt_d_octet_facts d (by omega)).2.1
  rw [List.all_eq_true] at fa fb fc fd
  intro x hx
  simp only [format_ip, List.mem_append, List.mem_cons] at hx
  rcases hx with hx | rfl | hx | rfl | hx | rfl | hx
  · exact Or.inl (fa x hx)
  · exact Or.inr rfl
  · exact Or.inl (fb x hx)
  · exact Or.inr rfl
  · exact Or.inl (fc x hx)
  · exact Or.inr rfl
  · exact Or.inl (fd x hx)

theorem format_ip_length (a b c d : Nat) (ha : a ≤ 255) (hb : b ≤ 255) (hc : c ≤ 255)
    (hd : d ≤ 255) : 7 ≤ (format_ip a b c d).length ∧ (format_ip a b c d).length ≤ 15 := by
  have fa := (fmt_d_octet_facts a (by omega)).1
  have fb := (fmt_d_octet_facts b (by omega)).1
  have fc := (fmt_d_octet_facts c (by omega)).1
  have fd := (fmt_d_octet_facts d (by omega)).1
  simp only [format_ip, List.length_append, List.length_cons]
  omega

/-- The buffer `ip_str` after `snprintf` holds the complete text, and the `str`
object built from it has exactly that text. -/
theorem ip_str_complete (a b c d : Nat) (ha : a ≤ 255) (hb : b ≤ 255) (hc : c ≤ 255)
    (hd : d ≤ 255) :
    (snprintf 16 (format_ip a b c d)).1 = format_ip a b c d ∧
      mp_obj_new_str (snprintf 16 (format_ip a b c d)).1
          (strlen (snprintf 16 (format_ip a b c d)).1)
        = mp_obj_t.str (String.mk (format_ip a b c d)) := by
  have hlen := format_ip_length a b c d ha hb hc hd
  have h1 : (snprintf 16 (format_ip a b c d)).1 = format_ip a b c d := by
    simp only [snprintf]
    exact List.take_of_length_le (by omega)
  refine ⟨h1, ?_⟩
  rw [h1, no_nul_of_digits_dots _ (format_ip_chars a b c d ha hb hc hd)]
  simp [mp_obj_new_str]

theorem fmt_d_numeral (undef : UndefinedStore) (n : Nat) (h : n ≤ 255) :
    is_numeral (fmt_d n) = true ∧ stored undef (fmt_d n) = n := by
  obtain ⟨⟨h1, -⟩, h2, h3⟩ := fmt_d_octet_facts n (by omega)
  refine ⟨?_, ?_⟩
  · have hne : (fmt_d n).isEmpty = false := by
      cases hf : fmt_d n with
      | nil => simp [hf] at h1
      | cons c cs => rfl
    simp [is_numeral, hne, h2]
  · rw [stored_of_le undef _ (by omega), h3]

theorem set_ip_of_four {σ : Type} (undef : UndefinedStore) (drv : Driver σ)
    (w : World σ) (s : String)
    (a b c d : Nat) (h : sscanf_ip undef s.toList = (4, [a, b, c, d])) :
    wizchip_set_ip undef drv (mp_obj_t.str s) w
      = (Except.ok mp_obj_t.none,
          ⟨drv.wizchip_set_ip ⟨a, b, c, d⟩ w.dev, w.calls ++ [DriverCall.set_ip ⟨a, b, c, d⟩]⟩) := by
  have h1 : sscanf_ip undef s.data = (4, [a, b, c, d]) := h
  simp [wizchip_set_ip, mp_obj_str_get_str, h1]

theorem set_ip_of_not_four {σ : Type} (undef : UndefinedStore) (drv : Driver σ)
    (w : World σ) (s : String)
    (h : (sscanf_ip undef s.toList).1 ≠ 4) :
    wizchip_set_ip undef drv (mp_obj_t.str s) w
      = (Except.error (MpException.ValueError "Invalid IP format"), w) := by
  have h1 : (sscanf_ip undef s.data).1 ≠ 4 := h
  simp [wizchip_set_ip, mp_obj_str_get_str, h1]

set_option maxRecDepth 100000 in
theorem fmt_d_octet_canonical : ∀ n < 256, is_canonical_octet (fmt_d n) = true := by
  decide

theorem segments_single (p : List Char) (hp : p.all conv_char = true) : segments p = [p] := by
  induction p with
  | nil => simp [segments]
  | cons c cs ih =>
    simp only [List.all_cons, Bool.and_eq_true] at hp
    simp [segments, conv_char_ne_dot c hp.1, ih hp.2]

theorem segments_format_ip (a b c d : Nat) (ha : a ≤ 255) (hb : b ≤ 255) (hc : c ≤ 255)
    (hd : d ≤ 255) : segments (format_ip a b c d) = [fmt_d a, fmt_d b, fmt_d c, fmt_d d] := by
  have conv : ∀ n, n ≤ 255 → (fmt_d n).all conv_char = true := fun n hn =>
    all_conv_char_of_all isdigit (fun c hc => by simp [conv_char, hc]) _
      (fmt_d_octet_facts n (by omega)).2.1
  simp only [format_ip]
  rw [segments_append_dot _ _ (conv a ha), segments_append_dot _ _ (conv b hb),
    segments_append_dot _ _ (conv c hc), segments_single _ (conv d hd)]

/-! ## The claims -/

/-- Claim C1: for octets `a b c d` in 0..255, the `str` object that `wizchip_get_ip`
builds from the `snprintf` buffer carries the text of `"%d.%d.%d.%d"`, and the
`sscanf` call of `wizchip_set_ip` on that text returns 4 and assigns `a b c d`. -/
theorem parse_format_roundtrip (undef : UndefinedStore) (a b c d : Nat) (ha : a ≤ 255)
    (hb : b ≤ 255)
    (hc : c ≤ 255) (hd : d ≤ 255) :
    mp_obj_str_get_str (mp_obj_new_str (snprintf 16 (format_ip a b c d)).1
        (strlen (snprintf 16 (format_ip a b c d)).1)) = Except.ok (format_ip a b c d) ∧
      sscanf_ip undef (format_ip a b c d) = (4, [a, b, c, d]) := by
  obtain ⟨na, sa⟩ := fmt_d_numeral undef a ha
  obtain ⟨nb, sb⟩ := fmt_d_numeral undef b hb
  obtain ⟨nc, sc⟩ := fmt_d_numeral undef c hc
  obtain ⟨nd, sd⟩ := fmt_d_numeral undef d hd
  refine ⟨?_, ?_⟩
  · rw [(ip_str_complete a b c d ha hb hc hd).2]
    rfl
  · have h := sscanf_ip_four_numerals undef (fmt_d a) (fmt_d b) (fmt_d c) (fmt_d d) []
      na nb nc nd rfl
    rw [sa, sb, sc, sd, List.append_nil] at h
    exact h

theorem parse_format_roundtrip_witness :
    (192 ≤ 255 ∧ 168 ≤ 255 ∧ 1 ≤ 255 ∧ 10 ≤ 255) ∧
      sscanf_ip low_byte_store (format_ip 192 168 1 10) = (4, [192, 168, 1, 10]) :=
  ⟨by decide,
    (parse_format_roundtrip low_byte_store 192 168 1 10 (by decide) (by decide) (by decide) (by decide)).2⟩

/-- Claim C2: for a text in canonical dotted-decimal form, the `sscanf` call of
`wizchip_set_ip` returns 4 and assigns four octets, and the `snprintf` call of
`wizchip_get_ip` on those octets fills the buffer with exactly that text. -/
theorem format_parse_roundtrip (undef : UndefinedStore) (s : List Char)
    (h : is_canonical s = true) :
    ∃ a b c d, (a ≤ 255 ∧ b ≤ 255 ∧ c ≤ 255 ∧ d ≤ 255) ∧
      sscanf_ip undef s = (4, [a, b, c, d]) ∧ (snprintf 16 (format_ip a b c d)).1 = s := by
  unfold is_canonical at h
  split at h
  · next n0 n1 n2 n3 hseg =>
    simp only [Bool.and_eq_true] at h
    obtain ⟨⟨⟨h0, h1⟩, h2⟩, h3⟩ := h
    obtain ⟨m0, v0⟩ := canonical_octet_parts n0 h0
    obtain ⟨m1, v1⟩ := canonical_octet_parts n1 h1
    obtain ⟨m2, v2⟩ := canonical_octet_parts n2 h2
    obtain ⟨m3, v3⟩ := canonical_octet_parts n3 h3
    have hs := eq_of_segments_four s n0 n1 n2 n3 hseg
    have hscan := sscanf_ip_four_numerals undef n0 n1 n2 n3 [] m0 m1 m2 m3 rfl
    rw [← hs, stored_of_le undef n0 v0, stored_of_le undef n1 v1, stored_of_le undef n2 v2,
      stored_of_le undef n3 v3] at hscan
    refine ⟨digits_value n0, digits_value n1, digits_value n2, digits_value n3,
      ⟨v0, v1, v2, v3⟩, hscan, ?_⟩
    rw [(ip_str_complete _ _ _ _ v0 v1 v2 v3).1]
    simp only [format_ip, fmt_d_canonical_octet n0 h0, fmt_d_canonical_octet n1 h1,
      fmt_d_canonical_octet n2 h2, fmt_d_canonical_octet n3 h3]
    simpa using hs.symm
  · simp at h

theorem format_parse_roundtrip_witness :
    is_canonical "192.168.1.10".toList = true ∧
      ∃ a b c d, (a ≤ 255 ∧ b ≤ 255 ∧ c ≤ 255 ∧ d ≤ 255) ∧
        sscanf_ip low_byte_store "192.168.1.10".toList = (4, [a, b, c, d]) ∧
        (snprintf 16 (format_ip a b c d)).1 = "192.168.1.10".toList :=
  ⟨by decide, format_parse_roundtrip low_byte_store "192.168.1.10".toList (by decide)⟩

/-- Claim C3, the code at the failing input: the text `1.2.3.256` is made of exactly
four numerals, the last of value 256, and `wizchip_set_ip` does not raise. Whatever the
C library leaves in the cell that cannot hold 256, `sscanf` returns 4, and the wrapper
returns `None` after one driver call with the octets 1, 2, 3 and that cell. -/
theorem set_ip_accepts_256 (undef : UndefinedStore) :
    (segments "1.2.3.256".toList = ["1".toList, "2".toList, "3".toList, "256".toList] ∧
      ["1".toList, "2".toList, "3".toList, "256".toList].all is_numeral = true ∧
      255 < digits_value "256".toList) ∧
      wizchip_set_ip undef fakeDriver (mp_obj_t.str "1.2.3.256") ⟨⟨⟨10, 0, 0, 1⟩, 0⟩, []⟩
        = (Except.ok mp_obj_t.none,
            ⟨⟨⟨1, 2, 3, undef false 256 % 256⟩, 0⟩,
              [DriverCall.set_ip ⟨1, 2, 3, undef false 256 % 256⟩]⟩) ∧
      (wizchip_set_ip undef fakeDriver (mp_obj_t.str "1.2.3.256") ⟨⟨⟨10, 0, 0, 1⟩, 0⟩, []⟩).1
        ≠ Except.error (MpException.ValueError "Invalid IP format") := by
  have h : sscanf_ip undef "1.2.3.256".toList = (4, [1, 2, 3, undef false 256 % 256]) :=
    sscanf_ip_four_numerals undef "1".toList "2".toList "3".toList "256".toList []
      (by decide) (by decide) (by decide) (by decide) rfl
  refine ⟨by decide, ?_, ?_⟩
  · rw [set_ip_of_four undef fakeDriver _ _ 1 2 3 _ h]
    rfl
  · rw [set_ip_of_four undef fakeDriver _ _ 1 2 3 _ h]
    simp

/-- Counterexample to claim C4: the text `1.2.3.4.5` has five segments, each a numeral
of value at most 255, and `wizchip_set_ip` raises nothing: it returns `None` after one
driver call with the octets 1, 2, 3, 4. -/
theorem set_ip_accepts_five_segments :
    (segments "1.2.3.4.5".toList
        = ["1".toList, "2".toList, "3".toList, "4".toList, "5".toList] ∧
      (segments "1.2.3.4.5".toList).all
        (fun n => is_numeral n && decide (digits_value n ≤ 255)) = true ∧
      (segments "1.2.3.4.5".toList).length ≠ 4) ∧
      wizchip_set_ip low_byte_store fakeDriver (mp_obj_t.str "1.2.3.4.5") ⟨⟨⟨10, 0, 0, 1⟩, 0⟩, []⟩
        = (Except.ok mp_obj_t.none,
            ⟨⟨⟨1, 2, 3, 4⟩, 0⟩, [DriverCall.set_ip ⟨1, 2, 3, 4⟩]⟩) ∧
      (wizchip_set_ip low_byte_store fakeDriver (mp_obj_t.str "1.2.3.4.5") ⟨⟨⟨10, 0, 0, 1⟩, 0⟩, []⟩).1
        ≠ Except.error (MpException.ValueError "Invalid IP format") := by
  have h : sscanf_ip low_byte_store "1.2.3.4.5".toList = (4, [1, 2, 3, 4]) := by decide
  refine ⟨by decide, ?_, ?_⟩
  · rw [set_ip_of_four low_byte_store fakeDriver _ _ 1 2 3 4 h]
    rfl
  · rw [set_ip_of_four low_byte_store fakeDriver _ _ 1 2 3 4 h]
    simp

/-- Claim C4, amended: a text with fewer than four `.`-separated segments (so every text
of fewer than four `.`-separated numerals) makes `wizchip_set_ip` raise
`ValueError("Invalid IP format")`, with no driver call and the device as it was. -/
theorem set_ip_rejects_fewer_segments {σ : Type} (undef : UndefinedStore) (drv : Driver σ)
    (w : World σ) (s : String)
    (hlen : (segments s.toList).length < 4) :
    wizchip_set_ip undef drv (mp_obj_t.str s) w
      = (Except.error (MpException.ValueError "Invalid IP format"), w) := by
  apply set_ip_of_not_four undef
  intro h
  obtain ⟨g0, g1, g2, g3, rest, hseg, -⟩ := first_four_convertible undef s.toList h
  rw [hseg] at hlen
  simp only [List.length_cons] at hlen
  omega

theorem set_ip_rejects_fewer_segments_witness :
    (segments "1.2.3".toList = ["1".toList, "2".toList, "3".toList] ∧
      (segments "1.2.3".toList).all is_numeral = true) ∧
      wizchip_set_ip low_byte_store fakeDriver (mp_obj_t.str "1.2.3") ⟨⟨⟨10, 0, 0, 1⟩, 0⟩, []⟩
        = (Except.error (MpException.ValueError "Invalid IP format"),
            ⟨⟨⟨10, 0, 0, 1⟩, 0⟩, []⟩) :=
  ⟨by decide,
    set_ip_rejects_fewer_segments low_byte_store fakeDriver ⟨⟨⟨10, 0, 0, 1⟩, 0⟩, []⟩ "1.2.3" (by decide)⟩

/-- Counterexample to claim C5: the first segment of `+1.2.3.4` does not begin with a
decimal digit, and `wizchip_set_ip` raises nothing: it returns `None` after one driver
call with the octets 1, 2, 3, 4. -/
theorem set_ip_accepts_signed_segment :
    ((segments "+1.2.3.4".toList).get? 0 = some "+1".toList ∧
      begins_with_digit "+1".toList = false) ∧
      wizchip_set_ip low_byte_store fakeDriver (mp_obj_t.str "+1.2.3.4") ⟨⟨⟨10, 0, 0, 1⟩, 0⟩, []⟩
        = (Except.ok mp_obj_t.none,
            ⟨⟨⟨1, 2, 3, 4⟩, 0⟩, [DriverCall.set_ip ⟨1, 2, 3, 4⟩]⟩) ∧
      (wizchip_set_ip low_byte_store fakeDriver (mp_obj_t.str "+1.2.3.4") ⟨⟨⟨10, 0, 0, 1⟩, 0⟩, []⟩).1
        ≠ Except.error (MpException.ValueError "Invalid IP format") := by
  have h : sscanf_ip low_byte_store "+1.2.3.4".toList = (4, [1, 2, 3, 4]) := by decide
  refine ⟨by decide, ?_, ?_⟩
  · rw [set_ip_of_four low_byte_store fakeDriver _ _ 1 2 3 4 h]
    rfl
  · rw [set_ip_of_four low_byte_store fakeDriver _ _ 1 2 3 4 h]
    simp

/-- Claim C5, amended: when one of the first four `.`-separated segments of the text is
empty or begins with a character that is neither a decimal digit, nor a sign, nor white
space, `wizchip_set_ip` raises `ValueError("Invalid IP format")`, with no driver call. -/
theorem set_ip_rejects_unconvertible {σ : Type} (undef : UndefinedStore) (drv : Driver σ)
    (w : World σ) (s : String)
    (i : Nat) (seg : List Char) (hi : i < 4) (hseg : (segments s.toList).get? i = some seg)
    (hbad : begins_convertible seg = false) :
    wizchip_set_ip undef drv (mp_obj_t.str s) w
      = (Except.error (MpException.ValueError "Invalid IP format"), w) := by
  apply set_ip_of_not_four undef
  intro h
  obtain ⟨g0, g1, g2, g3, rest, hs, b0, b1, b2, b3⟩ := first_four_convertible undef s.toList h
  rw [hs] at hseg
  have hcases : i = 0 ∨ i = 1 ∨ i = 2 ∨ i = 3 := by omega
  rcases hcases with rfl | rfl | rfl | rfl <;>
    simp only [List.get?_cons_zero, List.get?_cons_succ, Option.some.injEq] at hseg <;>
    subst hseg <;> simp_all

theorem set_ip_rejects_unconvertible_witness :
    (wizchip_set_ip low_byte_store fakeDriver (mp_obj_t.str "a.b.c.d") ⟨⟨⟨10, 0, 0, 1⟩, 0⟩, []⟩
        = (Except.error (MpException.ValueError "Invalid IP format"),
            ⟨⟨⟨10, 0, 0, 1⟩, 0⟩, []⟩)) ∧
      (wizchip_set_ip low_byte_store fakeDriver (mp_obj_t.str "") ⟨⟨⟨10, 0, 0, 1⟩, 0⟩, []⟩
        = (Except.error (MpException.ValueError "Invalid IP format"),
            ⟨⟨⟨10, 0, 0, 1⟩, 0⟩, []⟩)) :=
  ⟨set_ip_rejects_unconvertible low_byte_store fakeDriver ⟨⟨⟨10, 0, 0, 1⟩, 0⟩, []⟩ "a.b.c.d" 2 "c".toList
      (by decide) (by decide) (by decide),
    set_ip_rejects_unconvertible low_byte_store fakeDriver ⟨⟨⟨10, 0, 0, 1⟩, 0⟩, []⟩ "" 0 [] (by decide)
      (by decide) (by decide)⟩

/-- Claim C6: for a canonical dotted-decimal text, whose four segments are canonical
octet numerals of values `a b c d`, `wizchip_set_ip` raises nothing, returns `None`, and
makes exactly one driver call, `wizchip_set_ip` with the array `[a, b, c, d]`; the text
is the dotted-decimal text of `a b c d`. -/
theorem set_ip_forwards_canonical {σ : Type} (undef : UndefinedStore) (drv : Driver σ)
    (w : World σ) (s : String)
    (n0 n1 n2 n3 : List Char) (hseg : segments s.toList = [n0, n1, n2, n3])
    (h0 : is_canonical_octet n0 = true) (h1 : is_canonical_octet n1 = true)
    (h2 : is_canonical_octet n2 = true) (h3 : is_canonical_octet n3 = true) :
    wizchip_set_ip undef drv (mp_obj_t.str s) w
        = (Except.ok mp_obj_t.none,
            ⟨drv.wizchip_set_ip
                ⟨digits_value n0, digits_value n1, digits_value n2, digits_value n3⟩ w.dev,
              w.calls ++ [DriverCall.set_ip
                ⟨digits_value n0, digits_value n1, digits_value n2, digits_value n3⟩]⟩) ∧
      (digits_value n0 ≤ 255 ∧ digits_value n1 ≤ 255 ∧ digits_value n2 ≤ 255 ∧
        digits_value n3 ≤ 255) ∧
      s.toList
        = format_ip (digits_value n0) (digits_value n1) (digits_value n2) (digits_value n3) := by
  obtain ⟨m0, v0⟩ := canonical_octet_parts n0 h0
  obtain ⟨m1, v1⟩ := canonical_octet_parts n1 h1
  obtain ⟨m2, v2⟩ := canonical_octet_parts n2 h2
  obtain ⟨m3, v3⟩ := canonical_octet_parts n3 h3
  have hs := eq_of_segments_four s.toList n0 n1 n2 n3 hseg
  have hscan := sscanf_ip_four_numerals undef n0 n1 n2 n3 [] m0 m1 m2 m3 rfl
  rw [← hs, stored_of_le undef n0 v0, stored_of_le undef n1 v1, stored_of_le undef n2 v2,
    stored_of_le undef n3 v3] at hscan
  refine ⟨set_ip_of_four undef drv w s _ _ _ _ hscan, ⟨v0, v1, v2, v3⟩, ?_⟩
  simp only [format_ip, fmt_d_canonical_octet n0 h0, fmt_d_canonical_octet n1 h1,
    fmt_d_canonical_octet n2 h2, fmt_d_canonical_octet n3 h3]
  simpa using hs

theorem set_ip_forwards_canonical_witness :
    (wizchip_set_ip low_byte_store fakeDriver (mp_obj_t.str "0.0.0.0") ⟨⟨⟨10, 0, 0, 1⟩, 0⟩, []⟩
        = (Except.ok mp_obj_t.none,
            ⟨⟨⟨0, 0, 0, 0⟩, 0⟩, [DriverCall.set_ip ⟨0, 0, 0, 0⟩]⟩)) ∧
      (wizchip_set_ip low_byte_store fakeDriver (mp_obj_t.str "255.255.255.255") ⟨⟨⟨10, 0, 0, 1⟩, 0⟩, []⟩
        = (Except.ok mp_obj_t.none,
            ⟨⟨⟨255, 255, 255, 255⟩, 0⟩, [DriverCall.set_ip ⟨255, 255, 255, 255⟩]⟩)) :=
  ⟨(set_ip_forwards_canonical low_byte_store fakeDriver ⟨⟨⟨10, 0, 0, 1⟩, 0⟩, []⟩ "0.0.0.0"
      "0".toList "0".toList "0".toList "0".toList (by decide) (by decide) (by decide)
      (by decide) (by decide)).1,
    (set_ip_forwards_canonical low_byte_store fakeDriver ⟨⟨⟨10, 0, 0, 1⟩, 0⟩, []⟩ "255.255.255.255"
      "255".toList "255".toList "255".toList "255".toList (by decide) (by decide) (by decide)
      (by decide) (by decide)).1⟩

/-- Claim C7: when the driver call `wizchip_init()` returns the status `r`, the wrapper
`wizchip.init` returns `None` if and only if `r = 0`, raises `OSError(r)` for every
`r ≠ 0`, and in both cases has made exactly one driver call, the one `wizchip_init`. -/
theorem init_propagates_status {σ : Type} (drv : Driver σ) (w : World σ) (r : Int) (dev1 : σ)
    (hr : drv.wizchip_init w.dev = (r, dev1)) :
    ((wizchip_init drv w).1 = Except.ok mp_obj_t.none ↔ r = 0) ∧
      (r ≠ 0 → (wizchip_init drv w).1 = Except.error (MpException.OSError r)) ∧
      (wizchip_init drv w).2 = ⟨dev1, w.calls ++ [DriverCall.init]⟩ := by
  by_cases h : r = 0
  · simp [wizchip_init, hr, h]
  · simp [wizchip_init, hr, h]

theorem init_propagates_status_witness :
    (wizchip_init fakeDriver ⟨⟨⟨10, 0, 0, 1⟩, 5⟩, []⟩).1
        = Except.error (MpException.OSError 5) ∧
      (wizchip_init fakeDriver ⟨⟨⟨10, 0, 0, 1⟩, 5⟩, []⟩).2
        = ⟨⟨⟨10, 0, 0, 1⟩, 5⟩, [DriverCall.init]⟩ :=
  ⟨(init_propagates_status fakeDriver ⟨⟨⟨10, 0, 0, 1⟩, 5⟩, []⟩ 5 ⟨⟨10, 0, 0, 1⟩, 5⟩
      rfl).2.1 (by decide),
    (init_propagates_status fakeDriver ⟨⟨⟨10, 0, 0, 1⟩, 5⟩, []⟩ 5 ⟨⟨10, 0, 0, 1⟩, 5⟩
      rfl).2.2⟩

/-- Claim C8: whenever `wizchip_set_ip` raises a `ValueError`, the world after the call
is the world before it: the call log has no new driver call and the device is
unchanged. -/
theorem set_ip_validation_atomic {σ : Type} (undef : UndefinedStore) (drv : Driver σ)
    (w : World σ)
    (ip_obj : mp_obj_t) (msg : String)
    (h : (wizchip_set_ip undef drv ip_obj w).1 = Except.error (MpException.ValueError msg)) :
    (wizchip_set_ip undef drv ip_obj w).2 = w := by
  unfold wizchip_set_ip at h ⊢
  split
  · rfl
  · next ip_str hstr =>
    simp only [hstr] at h
    by_cases hn : (sscanf_ip undef ip_str).1 = 4
    · simp [hn] at h
    · simp [hn]

theorem set_ip_validation_atomic_witness :
    (wizchip_set_ip low_byte_store fakeDriver (mp_obj_t.str "1.2.3") ⟨⟨⟨10, 0, 0, 1⟩, 0⟩, []⟩).1
        = Except.error (MpException.ValueError "Invalid IP format") ∧
      (wizchip_set_ip low_byte_store fakeDriver (mp_obj_t.str "1.2.3") ⟨⟨⟨10, 0, 0, 1⟩, 0⟩, []⟩).2
        = ⟨⟨⟨10, 0, 0, 1⟩, 0⟩, []⟩ :=
  have h : (wizchip_set_ip low_byte_store fakeDriver (mp_obj_t.str "1.2.3") ⟨⟨⟨10, 0, 0, 1⟩, 0⟩, []⟩).1
      = Except.error (MpException.ValueError "Invalid IP format") := by
    rw [set_ip_of_not_four low_byte_store fakeDriver _ "1.2.3" (by decide)]
  ⟨h, set_ip_validation_atomic low_byte_store fakeDriver _ (mp_obj_t.str "1.2.3") "Invalid IP format" h⟩

/-- Claim C9: on a device whose current address is the octets `a b c d` (the driver
read reports them and leaves the device as it is), `wizchip_get_ip` raises nothing and
returns the text of `a b c d`: four numerals without leading zeros, of values `a b c d`,
joined by `.`, so `0.0.0.0` for the zero address; the device is unchanged and the only
driver call made is the read. -/
theorem get_ip_pure_read {σ : Type} (drv : Driver σ) (w : World σ) (a b c d : Nat)
    (ha : a ≤ 255) (hb : b ≤ 255) (hc : c ≤ 255) (hd : d ≤ 255)
    (hread : drv.wizchip_get_ip w.dev = (⟨a, b, c, d⟩, w.dev)) :
    wizchip_get_ip drv w
        = (Except.ok (mp_obj_t.str (String.mk (format_ip a b c d))),
            ⟨w.dev, w.calls ++ [DriverCall.get_ip]⟩) ∧
      segments (format_ip a b c d) = [fmt_d a, fmt_d b, fmt_d c, fmt_d d] ∧
      (is_canonical_octet (fmt_d a) = true ∧ is_canonical_octet (fmt_d b) = true ∧
        is_canonical_octet (fmt_d c) = true ∧ is_canonical_octet (fmt_d d) = true) ∧
      (digits_value (fmt_d a) = a ∧ digits_value (fmt_d b) = b ∧
        digits_value (fmt_d c) = c ∧ digits_value (fmt_d d) = d) ∧
      String.mk (format_ip 0 0 0 0) = "0.0.0.0" := by
  refine ⟨?_, segments_format_ip a b c d ha hb hc hd,
    ⟨fmt_d_octet_canonical a (by omega), fmt_d_octet_canonical b (by omega),
      fmt_d_octet_canonical c (by omega), fmt_d_octet_canonical d (by omega)⟩,
    ⟨(fmt_d_octet_facts a (by omega)).2.2, (fmt_d_octet_facts b (by omega)).2.2,
      (fmt_d_octet_facts c (by omega)).2.2, (fmt_d_octet_facts d (by omega)).2.2⟩,
    by decide⟩
  have e : ∀ n, n ≤ 255 → n % 256 = n := fun n hn => Nat.mod_eq_of_lt (by omega)
  simp only [wizchip_get_ip, hread, e a ha, e b hb, e c hc, e d hd,
    (ip_str_complete a b c d ha hb hc hd).2]

theorem get_ip_pure_read_witness :
    wizchip_get_ip fakeDriver ⟨⟨⟨0, 0, 0, 0⟩, 0⟩, []⟩
      = (Except.ok (mp_obj_t.str "0.0.0.0"), ⟨⟨⟨0, 0, 0, 0⟩, 0⟩, [DriverCall.get_ip]⟩) :=
  (get_ip_pure_read fakeDriver ⟨⟨⟨0, 0, 0, 0⟩, 0⟩, []⟩ 0 0 0 0 (by decide)
    (by decide) (by decide) (by decide) rfl).1

/-- Claim C10: for octets `a b c d` in 0..255 the text of `"%d.%d.%d.%d"` has between 7
and 15 characters, so with its NUL it fits the 16 bytes of `ip_str`: `snprintf` stores
the whole text, and the `str` object returned to the caller carries all of it. -/
theorem format_fits_buffer (a b c d : Nat) (ha : a ≤ 255) (hb : b ≤ 255) (hc : c ≤ 255)
    (hd : d ≤ 255) :
    (7 ≤ (format_ip a b c d).length ∧ (format_ip a b c d).length ≤ 15) ∧
      (format_ip a b c d).length + 1 ≤ 16 ∧
      snprintf 16 (format_ip a b c d) = (format_ip a b c d, (format_ip a b c d).length) ∧
      mp_obj_new_str (snprintf 16 (format_ip a b c d)).1
          (strlen (snprintf 16 (format_ip a b c d)).1)
        = mp_obj_t.str (String.mk (format_ip a b c d)) := by
  have hlen := format_ip_length a b c d ha hb hc hd
  obtain ⟨h1, h2⟩ := ip_str_complete a b c d ha hb hc hd
  refine ⟨hlen, by omega, ?_, h2⟩
  simp only [snprintf] at h1 ⊢
  rw [h1]

theorem format_fits_buffer_witness :
    (255 ≤ 255 ∧ 0 ≤ 255) ∧ (format_ip 255 255 255 255).length = 15 ∧
      (format_ip 0 0 0 0).length = 7 ∧
      snprintf 16 (format_ip 255 255 255 255) = ("255.255.255.255".toList, 15) :=
  ⟨by decide, by decide, by decide,
    (format_fits_buffer 255 255 255 255 (by decide) (by decide) (by decide)
      (by decide)).2.2.1⟩

end Wizchip
